import Mathlib

/-
  Verification of the steam_parser batch scraping tool (steam_parser.py).

  The development shallowly embeds the pure logic of the source file:
  string helpers mirror the Python string methods used by the code,
  the date normalizer mirrors SteamParser._format_date, the similarity
  scorer mirrors SteamParser._calculate_similarity, the candidate
  selection mirrors the loop in SteamParser.search_steam_game, the field
  extractors mirror SteamParser._extract_* over an abstract parse-tree
  (soup) model whose queries may raise, and the batch loop mirrors
  SteamParser.process_games and SteamParser.run with the network modelled
  as an environment returning per-name search and fetch outcomes.
-/

/-! ### Python string primitives -/

/-- Lowercasing of a single character as Python str.lower does on the
alphabets used by the source: ASCII letters and the Cyrillic block. -/
def lowerChar (c : Char) : Char :=
  if 'A' ≤ c ∧ c ≤ 'Z' then Char.ofNat (c.toNat + 32)
  else if 0x410 ≤ c.toNat ∧ c.toNat ≤ 0x42F then Char.ofNat (c.toNat + 0x20)
  else if c.toNat = 0x401 then Char.ofNat 0x451
  else c

/-- Python str.lower. -/
def pyLower (s : String) : String := String.mk (s.toList.map lowerChar)

/-- Python str.strip with no argument: drop whitespace from both ends. -/
def pyStrip (s : String) : String :=
  String.mk (((s.toList.dropWhile Char.isWhitespace).reverse.dropWhile Char.isWhitespace).reverse)

/-- Python str.rstrip with a period argument: drop trailing periods. -/
def rstripDots (s : String) : String :=
  String.mk ((s.toList.reverse.dropWhile (fun c => c == '.')).reverse)

/-- Python str.rstrip with no argument: drop trailing whitespace. -/
def rstripSpace (s : String) : String :=
  String.mk ((s.toList.reverse.dropWhile Char.isWhitespace).reverse)

/-- Is the first list a prefix of the second (boolean version). -/
def isPrefixList : List Char → List Char → Bool
  | [], _ => true
  | _ :: _, [] => false
  | a :: as, b :: bs => a == b && isPrefixList as bs

/-- Python substring containment on character lists. -/
def containsSubList (pat : List Char) : List Char → Bool
  | [] => pat.isEmpty
  | a :: t => isPrefixList pat (a :: t) || containsSubList pat t

/-- Python substring containment: pat occurring inside hay. -/
def containsSub (pat hay : String) : Bool := containsSubList pat.toList hay.toList

/-- Fuel-driven worker for Python str.replace: replace every
non-overlapping occurrence of pat by rep, scanning left to right.
The fuel always starts at the length of the list, which suffices. -/
def replaceAux (pat rep : List Char) : Nat → List Char → List Char
  | _, [] => []
  | 0, l => l
  | fuel + 1, a :: t =>
    if !pat.isEmpty && isPrefixList pat (a :: t) then
      rep ++ replaceAux pat rep fuel (List.drop pat.length (a :: t))
    else
      a :: replaceAux pat rep fuel t

/-- Python str.replace (all occurrences). -/
def pyReplace (s pat rep : String) : String :=
  String.mk (replaceAux pat.toList rep.toList s.toList.length s.toList)

/-- Worker for Python str.split with no argument: split on whitespace
runs, producing no empty words. -/
def wordsAux : List Char → List Char → List (List Char)
  | [], cur => if cur.isEmpty then [] else [cur.reverse]
  | c :: t, cur =>
    if c.isWhitespace then
      if cur.isEmpty then wordsAux t [] else cur.reverse :: wordsAux t []
    else wordsAux t (c :: cur)

/-- Python str.split with no argument. -/
def pySplit (s : String) : List String := (wordsAux s.toList []).map String.mk

/-- Worker for Python str.split with a one-character separator, which
keeps empty segments. -/
def splitOnCharAux (sep : Char) : List Char → List Char → List (List Char)
  | [], cur => [cur.reverse]
  | c :: t, cur =>
    if c == sep then cur.reverse :: splitOnCharAux sep t []
    else splitOnCharAux sep t (c :: cur)

/-- Python str.split with a one-character separator string. -/
def pySplitChar (sep : Char) (s : String) : List String :=
  (splitOnCharAux sep s.toList []).map String.mk

/-- Python filter(str.isdigit, s) joined back into a string. -/
def filterDigits (s : String) : String := String.mk (s.toList.filter Char.isDigit)

/-- Python str.zfill(2): left-pad with zeros to width two. -/
def pyZfill2 (s : String) : String :=
  if 2 ≤ s.toList.length then s
  else String.mk (List.replicate (2 - s.toList.length) '0' ++ s.toList)

/-! ### Date normalizer (SteamParser._format_date) -/

/-- The two-language month abbreviation table of _format_date. -/
def month_map : List (String × String) :=
  [("Jan", "01"), ("Feb", "02"), ("Mar", "03"), ("Apr", "04"),
   ("May", "05"), ("Jun", "06"), ("Jul", "07"), ("Aug", "08"),
   ("Sep", "09"), ("Oct", "10"), ("Nov", "11"), ("Dec", "12"),
   ("янв", "01"), ("фев", "02"), ("мар", "03"), ("апр", "04"),
   ("мая", "05"), ("июн", "06"), ("июл", "07"), ("ав", "08"),
   ("сен", "09"), ("окт", "10"), ("ноя", "11"), ("дек", "12")]

/-- Dictionary lookup in the month table. -/
def lookupMonth (k : String) : Option String :=
  (month_map.find? (fun p => p.1 == k)).map Prod.snd

/-- The cleaning step of _format_date: remove commas, periods and the
Cyrillic year-suffix letter, then strip surrounding whitespace.  Note
the Python code rebinds date_string to this cleaned value. -/
def cleanDate (s : String) : String :=
  pyStrip (pyReplace (pyReplace (pyReplace s "," "") "." "") "г" "")

/-- The tail of _format_date after the day, month and year tokens are
known; ds is the (cleaned) date_string returned on failure. -/
def finishDate (day mn year ds : String) : String :=
  let day_clean := filterDigits day
  let year_clean := filterDigits year
  if day_clean.isEmpty || year_clean.isEmpty then ds
  else pyZfill2 day_clean ++ "." ++ mn ++ "." ++ year_clean

/-- The month-resolution step of _format_date: try the lowered and
punctuation-stripped token, then the original token. -/
def formatFromParts (day month year ds : String) : String :=
  let month_clean := rstripSpace (rstripDots (pyLower month))
  match lookupMonth month_clean with
  | some mn => finishDate day mn year ds
  | none =>
    match lookupMonth month with
    | some mn => finishDate day mn year ds
    | none => ds

/-- SteamParser._format_date: normalize a raw date string to DD.MM.YYYY,
falling back to the cleaned string on unrecognized shapes. -/
def format_date (s : String) : String :=
  let ds := cleanDate s
  match pySplit ds with
  | [d, m, y] => formatFromParts d m y ds
  | [m, y] => formatFromParts "01" m y ds
  | _ => ds

/-! ### Claim C8 and claim C3 -/

/-- Claim C8: the date normalizer maps the four specified vectors
exactly: "16 Feb, 2012" to "16.02.2012", "Feb 2012" to "01.02.2012"
(day defaulted), "garbage" unchanged, and "18 сен 2018" to
"18.09.2018" via the Russian abbreviation table. -/
theorem format_date_spec_vectors :
    format_date "16 Feb, 2012" = "16.02.2012"
    ∧ format_date "Feb 2012" = "01.02.2012"
    ∧ format_date "garbage" = "garbage"
    ∧ format_date "18 сен 2018" = "18.09.2018" := by
  refine ⟨?_, ?_, ?_, ?_⟩ <;> decide

/-- Claim C3 evaluation: on a failure path (unknown month token) the
normalizer returns the cleaned string with the comma removed, not the
original input, because the Python code rebinds date_string to the
cleaned value before any failure return. -/
theorem format_date_returns_cleaned_not_original :
    format_date "16 Xxx, 2012" = "16 Xxx 2012"
    ∧ "16 Xxx 2012" ≠ "16 Xxx, 2012" := by
  refine ⟨?_, ?_⟩ <;> decide

/-! ### Similarity scorer (SteamParser._calculate_similarity) -/

/-- The set of lowercased whitespace tokens of a string, as built by
set(name.lower().split()) in the source. -/
def toks (s : String) : Finset String := (pySplit (pyLower s)).toFinset

/-- SteamParser._calculate_similarity: Jaccard similarity of the token
sets, zero when the union is empty.  The Python value
len(intersection) / len(union) is the rational mkRat inter.card
uni.card; the lemma calculate_similarity_eq_div below identifies it
with the cast division. -/
def calculate_similarity (a b : String) : ℚ :=
  let sw := toks a
  let mw := toks b
  let inter := sw ∩ mw
  let uni := sw ∪ mw
  if uni = ∅ then 0 else mkRat inter.card uni.card

/-- The score is the quotient of the intersection and union sizes. -/
lemma calculate_similarity_eq_div (a b : String) :
    calculate_similarity a b =
      ((toks a ∩ toks b).card : ℚ) / ((toks a ∪ toks b).card : ℚ) := by
  simp only [calculate_similarity]
  by_cases h : toks a ∪ toks b = ∅
  · have hsub : toks a ∩ toks b = ∅ :=
      Finset.subset_empty.mp (h ▸ ((Finset.inter_subset_left).trans Finset.subset_union_left))
    simp [h, hsub]
  · rw [if_neg h, Rat.mkRat_eq_div]
    push_cast
    rfl

/-- Modelled from the spec: Jaccard similarity of two finite sets of
words, the reference the scorer is claimed to implement. -/
def jaccardSet (A B : Finset String) : ℚ :=
  if A ∪ B = ∅ then 0 else ((A ∩ B).card : ℚ) / ((A ∪ B).card : ℚ)

/-! ### Claim C7 -/

/-- Claim C7 counterexample: a whitespace-only string is non-empty yet
scores 0 against itself, because its token set is empty; this refutes
the clause score(a, a) = 1 for every non-empty string a. -/
theorem calculate_similarity_whitespace_counterexample :
    calculate_similarity " " " " = 0 ∧ (" " : String) ≠ "" ∧ (0 : ℚ) ≠ 1 := by
  refine ⟨?_, ?_, ?_⟩ <;> decide

/-- Claim C7 amended: the scorer equals Jaccard similarity of the
lowercased whitespace-token sets, scores 1 on any string whose token
set is nonempty (rather than any non-empty string), is symmetric, gives
0 on two empty strings, and always lies between 0 and 1. -/
theorem calculate_similarity_properties :
    (∀ a b, calculate_similarity a b = jaccardSet (toks a) (toks b))
    ∧ (∀ a, toks a ≠ ∅ → calculate_similarity a a = 1)
    ∧ (∀ a b, calculate_similarity a b = calculate_similarity b a)
    ∧ calculate_similarity "" "" = 0
    ∧ (∀ a b, 0 ≤ calculate_similarity a b ∧ calculate_similarity a b ≤ 1) := by
  refine ⟨?_, ?_, ?_, by decide, ?_⟩
  · intro a b
    rw [calculate_similarity_eq_div, jaccardSet]
    by_cases h : toks a ∪ toks b = ∅
    · have hsub : toks a ∩ toks b = ∅ :=
        Finset.subset_empty.mp (h ▸ ((Finset.inter_subset_left).trans Finset.subset_union_left))
      simp [h, hsub]
    · rw [if_neg h]
  · intro a ha
    have hcard : (toks a).card ≠ 0 := by
      simpa [Finset.card_eq_zero] using ha
    rw [calculate_similarity_eq_div, Finset.inter_self, Finset.union_self]
    rw [div_self]
    exact_mod_cast hcard
  · intro a b
    simp only [calculate_similarity, Finset.inter_comm, Finset.union_comm]
  · intro a b
    rw [calculate_similarity_eq_div]
    by_cases h : toks a ∪ toks b = ∅
    · have hsub : toks a ∩ toks b = ∅ :=
        Finset.subset_empty.mp (h ▸ ((Finset.inter_subset_left).trans Finset.subset_union_left))
      simp [h, hsub]
    · have hpos : 0 < ((toks a ∪ toks b).card : ℚ) := by
        have hne : (toks a ∪ toks b).card ≠ 0 := by
          simpa [Finset.card_eq_zero] using h
        exact_mod_cast Nat.pos_of_ne_zero hne
      have hle : ((toks a ∩ toks b).card : ℚ) ≤ ((toks a ∪ toks b).card : ℚ) := by
        exact_mod_cast Finset.card_le_card
          ((Finset.inter_subset_left).trans Finset.subset_union_left)
      constructor
      · positivity
      · exact div_le_one_of_le₀ hle (le_of_lt hpos)

/-- Claim C7 amended witness: a concrete string with a nonempty token
set scores 1 against itself. -/
theorem calculate_similarity_properties_witness :
    calculate_similarity "Half Life" "Half Life" = 1 :=
  calculate_similarity_properties.2.1 "Half Life" (by decide)

/-! ### Name resolver candidate selection (SteamParser.search_steam_game) -/

/-- A search-suggestion candidate: the text of its match_name element
(absent when the element is missing, in which case the loop skips the
candidate entirely) and its href attribute. -/
structure Candidate where
  matchName : Option String
  href : Option String
deriving DecidableEq

/-- The companion-product test of the loop: any of the marker words
occurring in the lowercased display name. -/
def isSoundtrack (n : String) : Bool :=
  containsSub "soundtrack" (pyLower n) || containsSub "ost" (pyLower n)
    || containsSub "demo" (pyLower n)

/-- The acceptance threshold 0.3 of search_steam_game. -/
def threshold : ℚ := mkRat 3 10

/-- The threshold is three tenths. -/
lemma threshold_eq_div : threshold = 3 / 10 := by
  rw [threshold, Rat.mkRat_eq_div]
  norm_num

/-- One iteration of the best-match loop: skip candidates without a
name element, compute the similarity score, and update the running
best only when the score strictly exceeds it and the candidate is not
a bad match (score below the threshold or a companion product). -/
def stepC (q : String) (acc : Option Candidate × ℚ) (c : Candidate) :
    Option Candidate × ℚ :=
  match c.matchName with
  | none => acc
  | some n =>
    if acc.2 < calculate_similarity q n
        ∧ ¬(calculate_similarity q n < threshold ∨ isSoundtrack n = true)
    then (some c, calculate_similarity q n) else acc

/-- The best-match loop of search_steam_game, starting from
best_match = None and best_score = 0. -/
def scanBest (q : String) : List Candidate → (Option Candidate × ℚ) → Option Candidate × ℚ
  | [], acc => acc
  | c :: rest, acc => scanBest q rest (stepC q acc c)

/-- The selection logic of search_steam_game after candidates are
parsed: run the loop, then accept only a winner with score strictly
above the threshold whose href exists and contains the product-detail
path pattern. -/
def search_select (q : String) (cands : List Candidate) : Option String :=
  let r := scanBest q cands (none, 0)
  match r.1 with
  | none => none
  | some c =>
    if threshold < r.2 then
      match c.href with
      | some url =>
        if containsSub "store.steampowered.com/app/" url then some url else none
      | none => none
    else none

/-- A candidate every eligible reading of which scores strictly below
the bound (or is below threshold, or is a companion product). -/
def ltBound (q : String) (b : ℚ) (cc : Candidate) : Prop :=
  ∀ m, cc.matchName = some m →
    (calculate_similarity q m < b ∨ calculate_similarity q m < threshold
      ∨ isSoundtrack m = true)

/-- A candidate every eligible reading of which scores at most the
bound (or is below threshold, or is a companion product). -/
def leBound (q : String) (b : ℚ) (cc : Candidate) : Prop :=
  ∀ m, cc.matchName = some m →
    (calculate_similarity q m ≤ b ∨ calculate_similarity q m < threshold
      ∨ isSoundtrack m = true)

/-- Characterization of the best-match loop: either no update ever
fires and the accumulator is returned with every candidate bounded by
it, or the result is the first-seen candidate of the strictly highest
eligible score, with every earlier candidate strictly below it and
every later candidate at most it. -/
lemma scanBest_char (q : String) :
    ∀ (l : List Candidate) (acc : Option Candidate × ℚ),
      (scanBest q l acc = acc ∧ ∀ cc ∈ l, leBound q acc.2 cc)
      ∨ (∃ l1 c n l2,
          l = l1 ++ c :: l2 ∧ c.matchName = some n ∧
          scanBest q l acc = (some c, calculate_similarity q n) ∧
          acc.2 < calculate_similarity q n ∧
          threshold ≤ calculate_similarity q n ∧
          isSoundtrack n = false ∧
          (∀ cc ∈ l1, ltBound q (calculate_similarity q n) cc) ∧
          (∀ cc ∈ l2, leBound q (calculate_similarity q n) cc)) := by
  intro l
  induction l with
  | nil =>
    intro acc
    left
    exact ⟨rfl, by simp⟩
  | cons c rest ih =>
    intro acc
    have hrec : scanBest q (c :: rest) acc = scanBest q rest (stepC q acc c) := rfl
    cases hn : c.matchName with
    | none =>
      have hstep : stepC q acc c = acc := by simp [stepC, hn]
      rcases ih acc with ⟨he, hb⟩ | ⟨l1, cw, nw, l2, hdec, hmn, hres, hacc, h03, hst, hl1, hl2⟩
      · left
        constructor
        · rw [hrec, hstep, he]
        · intro cc hcc
          rcases List.mem_cons.mp hcc with h | h
          · subst h
            intro m hm
            rw [hn] at hm
            exact absurd hm (by simp)
          · exact hb cc h
      · right
        refine ⟨c :: l1, cw, nw, l2, by rw [hdec]; rfl, hmn, ?_, hacc, h03, hst, ?_, hl2⟩
        · rw [hrec, hstep, hres]
        · intro cc hcc
          rcases List.mem_cons.mp hcc with h | h
          · subst h
            intro m hm
            rw [hn] at hm
            exact absurd hm (by simp)
          · exact hl1 cc h
    | some n =>
      by_cases hupd : acc.2 < calculate_similarity q n
          ∧ ¬(calculate_similarity q n < threshold ∨ isSoundtrack n = true)
      · have hstep : stepC q acc c = (some c, calculate_similarity q n) := by
          simp only [stepC, hn]
          rw [if_pos hupd]
        obtain ⟨hlt, hbad⟩ := hupd
        rw [not_or] at hbad
        obtain ⟨hB, hC⟩ := hbad
        have h03 : threshold ≤ calculate_similarity q n := not_lt.mp hB
        have hstf : isSoundtrack n = false := by
          cases hsound : isSoundtrack n
          · rfl
          · exact absurd hsound hC
        rcases ih (some c, calculate_similarity q n) with ⟨he, hb⟩ |
          ⟨l1, cw, nw, l2, hdec, hmn, hres, hacc, h03w, hstw, hl1, hl2⟩
        · right
          refine ⟨[], c, n, rest, by simp, hn, ?_, hlt, h03, hstf, by simp, ?_⟩
          · rw [hrec, hstep, he]
          · intro cc hcc
            exact hb cc hcc
        · right
          have haccs : calculate_similarity q n < calculate_similarity q nw := hacc
          refine ⟨c :: l1, cw, nw, l2, by rw [hdec]; rfl, hmn, ?_, lt_trans hlt haccs, h03w, hstw, ?_, hl2⟩
          · rw [hrec, hstep, hres]
          · intro cc hcc
            rcases List.mem_cons.mp hcc with h | h
            · subst h
              intro m hm
              rw [hn] at hm
              injection hm with hm
              subst hm
              exact Or.inl haccs
            · exact hl1 cc h
      · have hstep : stepC q acc c = acc := by
          simp only [stepC, hn]
          rw [if_neg hupd]
        have hbound : calculate_similarity q n ≤ acc.2
            ∨ calculate_similarity q n < threshold ∨ isSoundtrack n = true := by
          by_cases hA : acc.2 < calculate_similarity q n
          · by_cases hB : calculate_similarity q n < threshold
            · exact Or.inr (Or.inl hB)
            · by_cases hC : isSoundtrack n = true
              · exact Or.inr (Or.inr hC)
              · exact absurd ⟨hA, fun h => h.elim hB hC⟩ hupd
          · exact Or.inl (le_of_not_lt hA)
        rcases ih acc with ⟨he, hb⟩ | ⟨l1, cw, nw, l2, hdec, hmn, hres, hacc, h03, hst, hl1, hl2⟩
        · left
          constructor
          · rw [hrec, hstep, he]
          · intro cc hcc
            rcases List.mem_cons.mp hcc with h | h
            · subst h
              intro m hm
              rw [hn] at hm
              injection hm with hm
              subst hm
              exact hbound
            · exact hb cc h
        · right
          refine ⟨c :: l1, cw, nw, l2, by rw [hdec]; rfl, hmn, ?_, hacc, h03, hst, ?_, hl2⟩
          · rw [hrec, hstep, hres]
          · intro cc hcc
            rcases List.mem_cons.mp hcc with h | h
            · subst h
              intro m hm
              rw [hn] at hm
              injection hm with hm
              subst hm
              rcases hbound with h1 | h2 | h3
              · exact Or.inl (lt_of_le_of_lt h1 hacc)
              · exact Or.inr (Or.inl h2)
              · exact Or.inr (Or.inr h3)
            · exact hl1 cc h

/-! ### Claim C5 and claim C6 -/

/-- Claim C5: the resolver accepts only with score strictly above the
0.3 threshold and a product-detail href pattern; if every eligible
candidate scores at most the threshold the result is NotFound; and an
accepted winner is the first-seen candidate among those with the
strictly highest eligible score. -/
theorem search_select_threshold (q : String) (cands : List Candidate) :
    threshold = 3 / 10
    ∧ ((∀ c ∈ cands, ∀ n, c.matchName = some n → isSoundtrack n = false →
          calculate_similarity q n ≤ threshold) → search_select q cands = none)
    ∧ (∀ url, search_select q cands = some url →
        ∃ l1 c l2 n, cands = l1 ++ c :: l2 ∧ c.matchName = some n
          ∧ c.href = some url
          ∧ containsSub "store.steampowered.com/app/" url = true
          ∧ isSoundtrack n = false
          ∧ threshold < calculate_similarity q n
          ∧ (∀ cc ∈ l1, ∀ m, cc.matchName = some m → isSoundtrack m = false →
              calculate_similarity q m < calculate_similarity q n)
          ∧ (∀ cc ∈ l2, ∀ m, cc.matchName = some m → isSoundtrack m = false →
              calculate_similarity q m ≤ calculate_similarity q n)) := by
  refine ⟨threshold_eq_div, ?_, ?_⟩
  · intro hall
    rcases scanBest_char q cands (none, 0) with ⟨he, _⟩ |
      ⟨l1, c, n, l2, hdec, hmn, hres, _, h03, hst, _, _⟩
    · simp [search_select, he]
    · have hcmem : c ∈ cands := by
        rw [hdec]
        exact List.mem_append_right _ (List.mem_cons_self _ _)
      have hle := hall c hcmem n hmn hst
      have hnot : ¬(threshold < calculate_similarity q n) := not_lt.mpr hle
      simp [search_select, hres, hnot]
  · intro url hurl
    rcases scanBest_char q cands (none, 0) with ⟨he, _⟩ |
      ⟨l1, c, n, l2, hdec, hmn, hres, _, h03, hst, hl1, hl2⟩
    · simp [search_select, he] at hurl
    · by_cases hgt : threshold < calculate_similarity q n
      · cases hhref : c.href with
        | none => simp [search_select, hres, hgt, hhref] at hurl
        | some u =>
          by_cases hpat : containsSub "store.steampowered.com/app/" u = true
          · have hu : u = url := by
              simp [search_select, hres, hgt, hhref, hpat] at hurl
              exact hurl
            subst hu
            refine ⟨l1, c, l2, n, hdec, hmn, hhref, hpat, hst, hgt, ?_, ?_⟩
            · intro cc hcc m hm hmst
              rcases hl1 cc hcc m hm with h | h | h
              · exact h
              · exact lt_trans h hgt
              · rw [hmst] at h
                exact absurd h (by simp)
            · intro cc hcc m hm hmst
              rcases hl2 cc hcc m hm with h | h | h
              · exact h
              · exact le_of_lt (lt_trans h hgt)
              · rw [hmst] at h
                exact absurd h (by simp)
          · simp [search_select, hres, hgt, hhref, hpat] at hurl
      · simp [search_select, hres, hgt] at hurl

/-- A candidate whose display name shares no token with the query. -/
def candLow : Candidate :=
  ⟨some "Different Thing", some "https://store.steampowered.com/app/1/"⟩

/-- A candidate matching the query exactly. -/
def candGood : Candidate :=
  ⟨some "Half Life 2", some "https://store.steampowered.com/app/220/"⟩

/-- Claim C5 witness: a below-threshold candidate list yields NotFound,
and a full-score candidate is accepted with all the stated properties. -/
theorem search_select_threshold_witness :
    search_select "aaa bbb" [candLow] = none
    ∧ (∃ l1 c l2 n, [candGood] = l1 ++ c :: l2 ∧ c.matchName = some n
        ∧ c.href = some "https://store.steampowered.com/app/220/"
        ∧ containsSub "store.steampowered.com/app/"
            "https://store.steampowered.com/app/220/" = true
        ∧ isSoundtrack n = false
        ∧ threshold < calculate_similarity "half life 2" n
        ∧ (∀ cc ∈ l1, ∀ m, cc.matchName = some m → isSoundtrack m = false →
            calculate_similarity "half life 2" m < calculate_similarity "half life 2" n)
        ∧ (∀ cc ∈ l2, ∀ m, cc.matchName = some m → isSoundtrack m = false →
            calculate_similarity "half life 2" m ≤ calculate_similarity "half life 2" n)) := by
  constructor
  · exact (search_select_threshold "aaa bbb" [candLow]).2.1 (by
      intro c hc n hn hst
      rw [List.mem_singleton] at hc
      subst hc
      simp only [candLow] at hn
      injection hn with hn
      subst hn
      decide)
  · exact (search_select_threshold "half life 2" [candGood]).2.2
      "https://store.steampowered.com/app/220/" (by decide)

/-- Claim C6: a candidate whose display name contains one of the marker
substrings soundtrack, ost, demo (case-insensitive) is never the
selected candidate, whatever its score: any successful selection comes
from a member candidate free of the markers. -/
theorem search_select_no_soundtrack (q : String) (cands : List Candidate) (url : String)
    (h : search_select q cands = some url) :
    ∃ c ∈ cands, c.href = some url
      ∧ ∀ n, c.matchName = some n → isSoundtrack n = false := by
  rcases scanBest_char q cands (none, 0) with ⟨he, _⟩ |
    ⟨l1, c, n, l2, hdec, hmn, hres, _, _, hst, _, _⟩
  · simp [search_select, he] at h
  · by_cases hgt : threshold < calculate_similarity q n
    · cases hhref : c.href with
      | none => simp [search_select, hres, hgt, hhref] at h
      | some u =>
        by_cases hpat : containsSub "store.steampowered.com/app/" u = true
        · have hu : u = url := by
            simp [search_select, hres, hgt, hhref, hpat] at h
            exact h
          subst hu
          refine ⟨c, ?_, hhref, ?_⟩
          · rw [hdec]
            exact List.mem_append_right _ (List.mem_cons_self _ _)
          · intro m hm
            rw [hmn] at hm
            injection hm with hm
            subst hm
            exact hst
        · simp [search_select, hres, hgt, hhref, hpat] at h
    · simp [search_select, hres, hgt] at h

/-- Claim C6 witness: the concrete selection over a single clean
candidate is a marker-free member. -/
theorem search_select_no_soundtrack_witness :
    ∃ c ∈ [candGood], c.href = some "https://store.steampowered.com/app/220/"
      ∧ ∀ n, c.matchName = some n → isSoundtrack n = false :=
  search_select_no_soundtrack "half life 2" [candGood]
    "https://store.steampowered.com/app/220/" (by decide)

/-! ### Parse-tree model and field extractors (SteamParser._extract_*) -/

/-- A Python value stored in a result record: the extractors return
strings except _extract_played_hours, which returns the integer 0 when
the element is absent. -/
inductive PyVal where
  | s (v : String)
  | i (n : Int)
deriving DecidableEq

/-- An element of the parse tree as the extractors consume it: its raw
text, its attribute dictionary, and the raw texts of its child link
elements (used by the tags extractor). -/
structure Element where
  text : String
  attrs : List (String × String)
  linkTexts : List String
deriving DecidableEq

/-- A checkcol cell of the language table: the text of its span child,
if any. -/
structure CheckCol where
  span : Option String
deriving DecidableEq

/-- A row of the language table: the text of its ellipsis-class
language cell, if present, and its checkcol cells. -/
structure LangRow where
  ellipsisCell : Option String
  checkCols : List CheckCol
deriving DecidableEq

/-- The game_language_options table: its tr rows. -/
structure LangTable where
  rows : List LangRow
deriving DecidableEq

/-- The opaque parse-tree collaborator: a CSS query that may raise or
miss, the free-to-play page text search, and the language table lookup,
which may also raise.  Raising queries model the exceptions the
extractor try blocks defend against. -/
structure Soup where
  selectOne : String → Except String (Option Element)
  findFreeToPlay : Bool
  langTable : Except String (Option LangTable)

/-- Python element attribute access: raises KeyError when absent. -/
def pyAttr (el : Element) (k : String) : Except String String :=
  match el.attrs.find? (fun p => p.1 == k) with
  | some p => .ok p.2
  | none => .error "KeyError"

/-- get_text(strip=True) of an element. -/
def getTextStripped (el : Element) : String := pyStrip el.text

/-- The for-selector-in-selectors loop shared by the extractors: the
first selector whose element exists and has non-empty stripped text
wins. -/
def firstMatch (soup : Soup) : List String → Except String (Option String)
  | [] => .ok none
  | sel :: rest =>
    match soup.selectOne sel with
    | .error e => .error e
    | .ok none => firstMatch soup rest
    | .ok (some el) =>
      if getTextStripped el = "" then firstMatch soup rest
      else .ok (some (getTextStripped el))

/-- Try body of _extract_price. -/
def price_body (soup : Soup) : Except String PyVal :=
  match firstMatch soup [".game_purchase_price", ".discount_final_price", ".price"] with
  | .error e => .error e
  | .ok (some t) => .ok (.s t)
  | .ok none =>
    if soup.findFreeToPlay then .ok (.s "Free to Play") else .ok (.s "not found")

/-- SteamParser._extract_price. -/
def extract_price (soup : Soup) : PyVal :=
  match price_body soup with
  | .ok v => v
  | .error _ => .s "Error extracting price"

/-- Try body of _extract_release_date. -/
def release_date_body (soup : Soup) : Except String PyVal :=
  match firstMatch soup
      [".release_date .date", ".release_date", ".date", "[itemprop=\"datePublished\"]"] with
  | .error e => .error e
  | .ok (some t) => .ok (.s (format_date t))
  | .ok none => .ok (.s "not found")

/-- SteamParser._extract_release_date. -/
def extract_release_date (soup : Soup) : PyVal :=
  match release_date_body soup with
  | .ok v => v
  | .error _ => .s "Error extracting release date"

/-- Try body of _extract_dev. -/
def dev_body (soup : Soup) : Except String PyVal :=
  match firstMatch soup [".dev_row #developers_list"] with
  | .error e => .error e
  | .ok (some t) => .ok (.s t)
  | .ok none => .ok (.s "DEV not found")

/-- SteamParser._extract_dev.  Its except branch returns the message
copied from the release-date extractor, exactly as in the source. -/
def extract_dev (soup : Soup) : PyVal :=
  match dev_body soup with
  | .ok v => v
  | .error _ => .s "Error extracting release date"

/-- Try body of _extract_metascore. -/
def metascore_body (soup : Soup) : Except String PyVal :=
  match firstMatch soup ["#game_area_metascore .score"] with
  | .error e => .error e
  | .ok (some t) => .ok (.s t)
  | .ok none => .ok (.s "not found")

/-- SteamParser._extract_metascore. -/
def extract_metascore (soup : Soup) : PyVal :=
  match metascore_body soup with
  | .ok v => v
  | .error _ => .s "Error extracting Metascore"

/-- Try body of _extract_reviews_count: reads the content attribute,
which raises when absent. -/
def reviews_count_body (soup : Soup) : Except String PyVal :=
  match soup.selectOne "meta[itemprop=\"reviewCount\"]" with
  | .error e => .error e
  | .ok none => .ok (.s "not found")
  | .ok (some el) =>
    match pyAttr el "content" with
    | .error e => .error e
    | .ok t => if t = "" then .ok (.s "not found") else .ok (.s t)

/-- SteamParser._extract_reviews_count. -/
def extract_reviews_count (soup : Soup) : PyVal :=
  match reviews_count_body soup with
  | .ok v => v
  | .error _ => .s "Error extracting Reviews count"

/-- Try body of _extract_reviews_tone. -/
def reviews_tone_body (soup : Soup) : Except String PyVal :=
  match soup.selectOne "meta[itemprop=\"ratingValue\"]" with
  | .error e => .error e
  | .ok none => .ok (.s "not found")
  | .ok (some el) =>
    match pyAttr el "content" with
    | .error e => .error e
    | .ok t => if t = "" then .ok (.s "not found") else .ok (.s t)

/-- SteamParser._extract_reviews_tone. -/
def extract_reviews_tone (soup : Soup) : PyVal :=
  match reviews_tone_body soup with
  | .ok v => v
  | .error _ => .s "Error extracting Reviews rating"

/-- Join a list of strings with comma separators, as the join in
_extract_tags does. -/
def joinComma : List String → String
  | [] => ""
  | [x] => x
  | x :: y :: t => x ++ ", " ++ joinComma (y :: t)

/-- Try body of _extract_tags. -/
def tags_body (soup : Soup) : Except String PyVal :=
  match soup.selectOne ".glance_tags.popular_tags" with
  | .error e => .error e
  | .ok none => .ok (.s "not found")
  | .ok (some el) =>
    if el.linkTexts.isEmpty then .ok (.s "not found")
    else
      match (el.linkTexts.map pyStrip).filter (fun t => !(t == "")) with
      | [] => .ok (.s "not found")
      | tag :: tags => .ok (.s (joinComma (tag :: tags)))

/-- SteamParser._extract_tags. -/
def extract_tags (soup : Soup) : PyVal :=
  match tags_body soup with
  | .ok v => v
  | .error _ => .s "Error extracting Tags"

/-- Unit-suffix stripping of _extract_played_hours. -/
def stripHoursUnits (t : String) : String :=
  pyStrip (pyReplace (pyReplace t "ч. всего" "") "hrs on record" "")

/-- Try body of _extract_played_hours: returns the integer 0 when the
element is missing or its text empty. -/
def played_body (soup : Soup) : Except String PyVal :=
  match soup.selectOne ".details_block.hours_played" with
  | .error e => .error e
  | .ok none => .ok (.i 0)
  | .ok (some el) =>
    if el.text = "" then .ok (.i 0)
    else
      let segs := pySplitChar '/' el.text
      if 2 ≤ segs.length then .ok (.s (stripHoursUnits (segs.getD 1 "")))
      else .ok (.s (stripHoursUnits el.text))

/-- SteamParser._extract_played_hours. -/
def extract_played_hours (soup : Soup) : PyVal :=
  match played_body soup with
  | .ok v => v
  | .error _ => .s "Error extracting Played"

/-- Try body of _extract_pegi: reads the alt attribute of the rating
icon image. -/
def pegi_body (soup : Soup) : Except String PyVal :=
  match soup.selectOne ".game_rating_icon img" with
  | .error e => .error e
  | .ok none => .ok (.s "not found")
  | .ok (some el) =>
    match pyAttr el "alt" with
    | .error e => .error e
    | .ok t => if t = "" then .ok (.s "not found") else .ok (.s t)

/-- SteamParser._extract_pegi. -/
def extract_pegi (soup : Soup) : PyVal :=
  match pegi_body soup with
  | .ok v => v
  | .error _ => .s "Error extracting Pegi"

/-- Does a row of the language table hold the localized word for
Russian in its language cell (case-insensitive substring match). -/
def isRussianRow (row : LangRow) : Bool :=
  match row.ellipsisCell with
  | some t => containsSub "русский" (pyLower (pyStrip t))
  | none => false

/-- The row scan of _extract_russian_voiceover: skip the header row,
take the first row naming Russian. -/
def findRussianRow (rows : List LangRow) : Option LangRow :=
  (rows.drop 1).find? isRussianRow

/-- The checkmark test of _extract_russian_voiceover on the voiceover
column (check-column index 1). -/
def voiceoverHasCheck (row : LangRow) : Bool :=
  match (row.checkCols.getD 1 ⟨none⟩).span with
  | some t => containsSub "✔" t
  | none => false

/-- Try body of _extract_russian_voiceover. -/
def rv_body (soup : Soup) : Except String String :=
  match soup.langTable with
  | .error e => .error e
  | .ok none => .ok "Не найдено"
  | .ok (some table) =>
    if table.rows.length < 2 then .ok "Не найдено"
    else
      match findRussianRow table.rows with
      | none => .ok "Нет"
      | some row =>
        if row.checkCols.length < 3 then .ok "Не найдено"
        else if voiceoverHasCheck row then .ok "Да" else .ok "Нет"

/-- SteamParser._extract_russian_voiceover. -/
def extract_russian_voiceover (soup : Soup) : PyVal :=
  match rv_body soup with
  | .ok v => .s v
  | .error _ => .s "Ошибка извлечения"

/-- The declared field identifiers, in the order of the
fields_to_extract dictionary in SteamParser.__init__. -/
def fieldNames : List String :=
  ["price", "release_date", "dev", "metascore", "reviews_count", "reviews_tone",
   "russian_voiceover", "tags", "pegi", "played", "detail_url"]

/-- The field extractor set applied to a page: one entry per declared
field, with detail_url passed through. -/
def fields_to_extract (soup : Soup) (detail_url : String) : List (String × PyVal) :=
  [("price", extract_price soup),
   ("release_date", extract_release_date soup),
   ("dev", extract_dev soup),
   ("metascore", extract_metascore soup),
   ("reviews_count", extract_reviews_count soup),
   ("reviews_tone", extract_reviews_tone soup),
   ("russian_voiceover", extract_russian_voiceover soup),
   ("tags", extract_tags soup),
   ("pegi", extract_pegi soup),
   ("played", extract_played_hours soup),
   ("detail_url", .s detail_url)]

/-- Python dict.get with a default. -/
def dictGet (d : List (String × PyVal)) (k : String) (dflt : PyVal) : PyVal :=
  match d.find? (fun p => p.1 == k) with
  | some p => p.2
  | none => dflt

/-! ### Claim C2 -/

/-- A page on which the developer-list query raises while every other
query misses cleanly. -/
def devFailSoup : Soup :=
  ⟨fun sel => if sel = ".dev_row #developers_list" then .error "boom" else .ok none,
   false, .ok none⟩

/-- Claim C2 evaluation: when the internal logic of the dev extractor
raises, the extractor returns the marker "Error extracting release
date" copied from the release-date extractor instead of one naming the
dev field; the failure is still confined to that field and the record
keeps every declared field. -/
theorem extract_dev_wrong_error_marker :
    dev_body devFailSoup = Except.error "boom"
    ∧ extract_dev devFailSoup = PyVal.s "Error extracting release date"
    ∧ "Error extracting release date" ≠ "Error extracting dev"
    ∧ (fields_to_extract devFailSoup "https://u").map Prod.fst = fieldNames
    ∧ dictGet (fields_to_extract devFailSoup "https://u") "price" (PyVal.s "")
        = PyVal.s "not found"
    ∧ dictGet (fields_to_extract devFailSoup "https://u") "russian_voiceover" (PyVal.s "")
        = PyVal.s "Не найдено" := by
  refine ⟨rfl, ?_, ?_, ?_, ?_, ?_⟩ <;> decide

/-! ### Claim C4 -/

/-- A header row without a language cell. -/
def headerRow : LangRow := ⟨none, []⟩

/-- A non-Russian data row with three checked columns. -/
def rowEnglish : LangRow := ⟨some "English", [⟨some "✔"⟩, ⟨some "✔"⟩, ⟨some "✔"⟩]⟩

/-- A Russian data row with a checkmark in the voiceover column. -/
def rowRussianVO : LangRow := ⟨some "Русский", [⟨some "✔"⟩, ⟨some "✔"⟩, ⟨some "✔"⟩]⟩

/-- A Russian data row without a checkmark in the voiceover column. -/
def rowRussianNoVO : LangRow := ⟨some "Русский", [⟨some "✔"⟩, ⟨none⟩, ⟨some "✔"⟩]⟩

/-- A language table with no Russian row. -/
def tableNoRussian : LangTable := ⟨[headerRow, rowEnglish]⟩

/-- A language table whose Russian row has the voiceover checkmark. -/
def tableRussianVO : LangTable := ⟨[headerRow, rowRussianVO]⟩

/-- A language table whose Russian row lacks the voiceover checkmark. -/
def tableRussianNoVO : LangTable := ⟨[headerRow, rowRussianNoVO]⟩

/-- A page without a language table. -/
def soupNoTable : Soup := ⟨fun _ => .ok none, false, .ok none⟩

/-- A page carrying the given language table. -/
def soupWith (t : LangTable) : Soup := ⟨fun _ => .ok none, false, .ok (some t)⟩

/-- Claim C4 counterexample: the language-not-listed outcome and the
voiceover-not-available outcome produce the same marker value, so the
four non-error outcomes do not have pairwise distinct markers. -/
theorem russian_voiceover_collapse :
    extract_russian_voiceover (soupWith tableNoRussian) = PyVal.s "Нет"
    ∧ extract_russian_voiceover (soupWith tableRussianNoVO) = PyVal.s "Нет"
    ∧ findRussianRow tableNoRussian.rows = none
    ∧ findRussianRow tableRussianNoVO.rows = some rowRussianNoVO
    ∧ voiceoverHasCheck rowRussianNoVO = false := by
  refine ⟨?_, ?_, ?_, ?_, ?_⟩ <;> decide

/-- Claim C4 amended: the four non-error outcomes map to three marker
values: table absent gives the not-found marker, a present table with
no Russian row gives the negative marker, a Russian row with the
voiceover checkmark gives the affirmative marker, and a Russian row
without it gives the negative marker again; the language-not-listed
marker is distinct from the table-not-found marker and from the
affirmative marker, but coincides with the not-available marker. -/
theorem russian_voiceover_taxonomy :
    (∀ soup, soup.langTable = Except.ok none →
      extract_russian_voiceover soup = PyVal.s "Не найдено")
    ∧ (∀ soup table, soup.langTable = Except.ok (some table) →
        2 ≤ table.rows.length → findRussianRow table.rows = none →
        extract_russian_voiceover soup = PyVal.s "Нет")
    ∧ (∀ soup table row, soup.langTable = Except.ok (some table) →
        2 ≤ table.rows.length → findRussianRow table.rows = some row →
        3 ≤ row.checkCols.length → voiceoverHasCheck row = true →
        extract_russian_voiceover soup = PyVal.s "Да")
    ∧ (∀ soup table row, soup.langTable = Except.ok (some table) →
        2 ≤ table.rows.length → findRussianRow table.rows = some row →
        3 ≤ row.checkCols.length → voiceoverHasCheck row = false →
        extract_russian_voiceover soup = PyVal.s "Нет")
    ∧ PyVal.s "Нет" ≠ PyVal.s "Не найдено"
    ∧ PyVal.s "Да" ≠ PyVal.s "Нет"
    ∧ PyVal.s "Да" ≠ PyVal.s "Не найдено" := by
  refine ⟨?_, ?_, ?_, ?_, by decide, by decide, by decide⟩
  · intro soup h
    simp [extract_russian_voiceover, rv_body, h]
  · intro soup table h hlen hfind
    simp [extract_russian_voiceover, rv_body, h, not_lt.mpr hlen, hfind]
  · intro soup table row h hlen hfind hcols hcheck
    simp [extract_russian_voiceover, rv_body, h, not_lt.mpr hlen, hfind,
      not_lt.mpr hcols, hcheck]
  · intro soup table row h hlen hfind hcols hcheck
    simp [extract_russian_voiceover, rv_body, h, not_lt.mpr hlen, hfind,
      not_lt.mpr hcols, hcheck]

/-- Claim C4 amended witness: the four concrete pages realize the four
outcomes with the stated markers. -/
theorem russian_voiceover_taxonomy_witness :
    extract_russian_voiceover soupNoTable = PyVal.s "Не найдено"
    ∧ extract_russian_voiceover (soupWith tableNoRussian) = PyVal.s "Нет"
    ∧ extract_russian_voiceover (soupWith tableRussianVO) = PyVal.s "Да"
    ∧ extract_russian_voiceover (soupWith tableRussianNoVO) = PyVal.s "Нет" :=
  ⟨russian_voiceover_taxonomy.1 soupNoTable rfl,
   russian_voiceover_taxonomy.2.1 (soupWith tableNoRussian) tableNoRussian rfl
     (by decide) (by decide),
   russian_voiceover_taxonomy.2.2.1 (soupWith tableRussianVO) tableRussianVO rowRussianVO rfl
     (by decide) (by decide) (by decide) (by decide),
   russian_voiceover_taxonomy.2.2.2.1 (soupWith tableRussianNoVO) tableRussianNoVO
     rowRussianNoVO rfl (by decide) (by decide) (by decide) (by decide)⟩

/-! ### Batch orchestrator (SteamParser.process_games and SteamParser.run) -/

/-- An output row as assembled by process_games: the Python dict has
game_name and status first, then one entry per declared field. -/
structure GameRecord where
  game_name : String
  status : String
  fields : List (String × PyVal)
deriving DecidableEq

/-- The record assembled when the search returns no detail URL. -/
def searchFailedRecord (name : String) : GameRecord :=
  ⟨name, "Search failed",
    fieldNames.map (fun f =>
      (f, if f = "detail_url" then PyVal.s "Not found" else PyVal.s "nf"))⟩

/-- The record assembled from extracted game data. -/
def successRecord (name : String) (gd : List (String × PyVal)) : GameRecord :=
  ⟨name, "Success", fieldNames.map (fun f => (f, dictGet gd f (PyVal.s "Not found")))⟩

/-- The record assembled when fetching the detail page fails. -/
def parseFailedRecord (name url : String) : GameRecord :=
  ⟨name, "Parse failed",
    fieldNames.map (fun f =>
      (f, if f = "detail_url" then PyVal.s url else PyVal.s ""))⟩

/-- SteamParser.parse_game_details: on a transport failure it returns
None; otherwise it runs the full extractor set over the page. -/
def parse_game_details (detail_url : String) (fetched : Option Soup) :
    Option (List (String × PyVal)) :=
  fetched.map (fun soup => fields_to_extract soup detail_url)

/-- The network collaborator: per name, the detail URL found by the
search (None models both no-match and transport failure, as in the
source), and per URL, the fetched page (None models a transport
failure inside parse_game_details). -/
structure FetchEnv where
  search : String → Option String
  page : String → Option Soup

/-- The record built for a name whose search returned a detail URL. -/
def fetchedRecord (env : FetchEnv) (g url : String) : GameRecord :=
  match parse_game_details url (env.page url) with
  | some gd => successRecord g gd
  | none => parseFailedRecord g url

/-- What one call of process_games produces: the returned results
list, the checkpoint flushes it performed in order, the names it
actually searched, and the final contents of current_results. -/
structure ProcOut where
  results : List GameRecord
  flushWrites : List (List GameRecord)
  searched : List String
  finalCur : List GameRecord

/-- SteamParser.process_games over the remaining names, carrying
current_results: skip names in existing_games, append one record per
processed name to both results and current_results, and after a
processed name that did not take the search-failed early continue,
flush and clear current_results whenever its length is a multiple
of 10. -/
def process_games (env : FetchEnv) (existing : List String) :
    List String → List GameRecord → ProcOut
  | [], cur => ⟨[], [], [], cur⟩
  | g :: rest, cur =>
    if existing.contains g then
      process_games env existing rest cur
    else
      match env.search g with
      | none =>
        let out := process_games env existing rest (cur ++ [searchFailedRecord g])
        ⟨searchFailedRecord g :: out.results, out.flushWrites,
         g :: out.searched, out.finalCur⟩
      | some url =>
        if (cur ++ [fetchedRecord env g url]).length % 10 = 0 then
          let out := process_games env existing rest []
          ⟨fetchedRecord env g url :: out.results,
           (cur ++ [fetchedRecord env g url]) :: out.flushWrites,
           g :: out.searched, out.finalCur⟩
        else
          let out := process_games env existing rest (cur ++ [fetchedRecord env g url])
          ⟨fetchedRecord env g url :: out.results, out.flushWrites,
           g :: out.searched, out.finalCur⟩

/-- What one run produces: the results list of process_games, every
table write of the run in order (checkpoint flushes, then the final
save of the whole results list when non-empty), and the searched
names. -/
structure RunOut where
  results : List GameRecord
  writes : List (List GameRecord)
  searched : List String

/-- SteamParser.load_existing_games: the stripped game_name column of
the existing output table. -/
def load_existing_games (table : List GameRecord) : List String :=
  table.map (fun r => pyStrip r.game_name)

/-- SteamParser.run: load the existing names, return early on an empty
games list, process the games, and save the full results list at the
end when it is non-empty. -/
def run_model (env : FetchEnv) (games : List String) (initTable : List GameRecord) :
    RunOut :=
  let existing := load_existing_games initTable
  if games.isEmpty then ⟨[], [], []⟩
  else
    let out := process_games env existing games []
    ⟨out.results,
     out.flushWrites ++ (if out.results.isEmpty then [] else [out.results]),
     out.searched⟩

/-- The record of a resolved name carries that name. -/
lemma fetchedRecord_name (env : FetchEnv) (g url : String) :
    (fetchedRecord env g url).game_name = g := by
  cases h : parse_game_details url (env.page url) <;> simp [fetchedRecord, h,
    successRecord, parseFailedRecord]

/-- Unfolding process_games on a skipped name. -/
lemma process_games_cons_skip (env : FetchEnv) (existing : List String)
    (g : String) (rest : List String) (cur : List GameRecord)
    (h : existing.contains g = true) :
    process_games env existing (g :: rest) cur = process_games env existing rest cur := by
  have hg : g ∈ existing := by simpa using h
  simp [process_games, hg]

/-- Unfolding process_games on a name whose search fails. -/
lemma process_games_cons_searchfail (env : FetchEnv) (existing : List String)
    (g : String) (rest : List String) (cur : List GameRecord)
    (h1 : existing.contains g = false) (h2 : env.search g = none) :
    process_games env existing (g :: rest) cur =
      ⟨searchFailedRecord g ::
         (process_games env existing rest (cur ++ [searchFailedRecord g])).results,
       (process_games env existing rest (cur ++ [searchFailedRecord g])).flushWrites,
       g :: (process_games env existing rest (cur ++ [searchFailedRecord g])).searched,
       (process_games env existing rest (cur ++ [searchFailedRecord g])).finalCur⟩ := by
  have hg : g ∉ existing := by simpa using h1
  simp [process_games, hg, h2]

/-- Unfolding process_games on a resolved name that triggers the
checkpoint. -/
lemma process_games_cons_flush (env : FetchEnv) (existing : List String)
    (g : String) (rest : List String) (cur : List GameRecord) (url : String)
    (h1 : existing.contains g = false) (h2 : env.search g = some url)
    (h3 : (cur ++ [fetchedRecord env g url]).length % 10 = 0) :
    process_games env existing (g :: rest) cur =
      ⟨fetchedRecord env g url :: (process_games env existing rest []).results,
       (cur ++ [fetchedRecord env g url]) ::
         (process_games env existing rest []).flushWrites,
       g :: (process_games env existing rest []).searched,
       (process_games env existing rest []).finalCur⟩ := by
  have hg : g ∉ existing := by simpa using h1
  have h3n : (cur.length + 1) % 10 = 0 := by simpa using h3
  simp [process_games, hg, h2, h3n]

/-- Unfolding process_games on a resolved name that does not trigger
the checkpoint. -/
lemma process_games_cons_noflush (env : FetchEnv) (existing : List String)
    (g : String) (rest : List String) (cur : List GameRecord) (url : String)
    (h1 : existing.contains g = false) (h2 : env.search g = some url)
    (h3 : ¬((cur ++ [fetchedRecord env g url]).length % 10 = 0)) :
    process_games env existing (g :: rest) cur =
      ⟨fetchedRecord env g url ::
         (process_games env existing rest (cur ++ [fetchedRecord env g url])).results,
       (process_games env existing rest (cur ++ [fetchedRecord env g url])).flushWrites,
       g :: (process_games env existing rest (cur ++ [fetchedRecord env g url])).searched,
       (process_games env existing rest (cur ++ [fetchedRecord env g url])).finalCur⟩ := by
  have hg : g ∉ existing := by simpa using h1
  have h3n : ¬((cur.length + 1) % 10 = 0) := by simpa using h3
  simp [process_games, hg, h2, h3n]

/-! ### Claim C9 -/

/-- The fixed column set of every output row: game_name, status, then
the declared field identifiers. -/
def recordColumns : List String := "game_name" :: "status" :: fieldNames

/-- The keys of a record, in dictionary insertion order. -/
def recordKeys (r : GameRecord) : List String :=
  "game_name" :: "status" :: r.fields.map Prod.fst

/-- Search-failed records carry the full column set. -/
lemma recordKeys_searchFailed (name : String) :
    recordKeys (searchFailedRecord name) = recordColumns := by
  simp [recordKeys, searchFailedRecord, recordColumns, fieldNames]

/-- Success records carry the full column set, whatever the data. -/
lemma recordKeys_success (name : String) (gd : List (String × PyVal)) :
    recordKeys (successRecord name gd) = recordColumns := by
  simp [recordKeys, successRecord, recordColumns, fieldNames]

/-- Parse-failed records carry the full column set. -/
lemma recordKeys_parseFailed (name url : String) :
    recordKeys (parseFailedRecord name url) = recordColumns := by
  simp [recordKeys, parseFailedRecord, recordColumns, fieldNames]

/-- Records of resolved names carry the full column set. -/
lemma recordKeys_fetched (env : FetchEnv) (g url : String) :
    recordKeys (fetchedRecord env g url) = recordColumns := by
  cases h : parse_game_details url (env.page url) <;>
    simp [fetchedRecord, h, recordKeys_success, recordKeys_parseFailed]

/-- Claim C9: the declared columns are pairwise distinct and every
record the batch loop produces, on every status path, has exactly the
fixed column set: one entry per declared field identifier, with
failure markers rather than omitted keys. -/
theorem process_games_fixed_schema :
    recordColumns.Nodup
    ∧ ∀ (env : FetchEnv) (existing games : List String) (cur : List GameRecord),
        ∀ r ∈ (process_games env existing games cur).results,
          recordKeys r = recordColumns := by
  refine ⟨by decide, ?_⟩
  intro env existing games
  induction games with
  | nil =>
    intro cur r hr
    simp [process_games] at hr
  | cons g rest ih =>
    intro cur r hr
    by_cases hex : existing.contains g = true
    · rw [process_games_cons_skip env existing g rest cur hex] at hr
      exact ih cur r hr
    · have hex2 : existing.contains g = false := by
        cases hc : existing.contains g
        · rfl
        · exact absurd hc hex
      cases hsearch : env.search g with
      | none =>
        rw [process_games_cons_searchfail env existing g rest cur hex2 hsearch] at hr
        rcases List.mem_cons.mp hr with h | h
        · subst h
          exact recordKeys_searchFailed g
        · exact ih _ r h
      | some url =>
        by_cases hmod : (cur ++ [fetchedRecord env g url]).length % 10 = 0
        · rw [process_games_cons_flush env existing g rest cur url hex2 hsearch hmod] at hr
          rcases List.mem_cons.mp hr with h | h
          · subst h
            exact recordKeys_fetched env g url
          · exact ih _ r h
        · rw [process_games_cons_noflush env existing g rest cur url hex2 hsearch hmod] at hr
          rcases List.mem_cons.mp hr with h | h
          · subst h
            exact recordKeys_fetched env g url
          · exact ih _ r h

/-- An environment in which every search misses. -/
def env0 : FetchEnv := ⟨fun _ => none, fun _ => none⟩

/-- Claim C9 witness: the record of a concrete one-name run has the
fixed column set. -/
theorem process_games_fixed_schema_witness :
    recordKeys (searchFailedRecord "x") = recordColumns :=
  process_games_fixed_schema.2 env0 [] ["x"] [] (searchFailedRecord "x") (by decide)

/-! ### Claim C10 -/

/-- Processing never searches, returns, flushes or buffers a record
for a name in the existing set, given a clean starting buffer. -/
lemma process_games_skips (env : FetchEnv) (existing : List String) (name : String)
    (hmem : existing.contains name = true) :
    ∀ (games : List String) (cur : List GameRecord),
      (∀ r ∈ cur, r.game_name ≠ name) →
      name ∉ (process_games env existing games cur).searched
      ∧ (∀ r ∈ (process_games env existing games cur).results, r.game_name ≠ name)
      ∧ (∀ w ∈ (process_games env existing games cur).flushWrites,
          ∀ r ∈ w, r.game_name ≠ name)
      ∧ (∀ r ∈ (process_games env existing games cur).finalCur, r.game_name ≠ name) := by
  intro games
  induction games with
  | nil =>
    intro cur hcur
    refine ⟨by simp [process_games], by simp [process_games], by simp [process_games], ?_⟩
    simpa [process_games] using hcur
  | cons g rest ih =>
    intro cur hcur
    by_cases hex : existing.contains g = true
    · rw [process_games_cons_skip env existing g rest cur hex]
      exact ih cur hcur
    · have hex2 : existing.contains g = false := by
        cases hc : existing.contains g
        · rfl
        · exact absurd hc hex
      have hgname : g ≠ name := by
        intro h
        subst h
        rw [hmem] at hex2
        exact absurd hex2 (by simp)
      cases hsearch : env.search g with
      | none =>
        rw [process_games_cons_searchfail env existing g rest cur hex2 hsearch]
        have hcur2 : ∀ r ∈ cur ++ [searchFailedRecord g], r.game_name ≠ name := by
          intro r hr
          rcases List.mem_append.mp hr with h | h
          · exact hcur r h
          · rw [List.mem_singleton] at h
            subst h
            simpa [searchFailedRecord] using hgname
        obtain ⟨ih1, ih2, ih3, ih4⟩ := ih (cur ++ [searchFailedRecord g]) hcur2
        refine ⟨?_, ?_, ih3, ih4⟩
        · intro hmem2
          rcases List.mem_cons.mp hmem2 with h | h
          · exact hgname h.symm
          · exact ih1 h
        · intro r hr
          rcases List.mem_cons.mp hr with h | h
          · subst h
            simpa [searchFailedRecord] using hgname
          · exact ih2 r h
      | some url =>
        have hrname : (fetchedRecord env g url).game_name ≠ name := by
          rw [fetchedRecord_name]
          exact hgname
        by_cases hmod : (cur ++ [fetchedRecord env g url]).length % 10 = 0
        · rw [process_games_cons_flush env existing g rest cur url hex2 hsearch hmod]
          obtain ⟨ih1, ih2, ih3, ih4⟩ := ih [] (by simp)
          refine ⟨?_, ?_, ?_, ih4⟩
          · intro hmem2
            rcases List.mem_cons.mp hmem2 with h | h
            · exact hgname h.symm
            · exact ih1 h
          · intro r hr
            rcases List.mem_cons.mp hr with h | h
            · subst h
              exact hrname
            · exact ih2 r h
          · intro w hw
            rcases List.mem_cons.mp hw with h | h
            · subst h
              intro r hr
              rcases List.mem_append.mp hr with h2 | h2
              · exact hcur r h2
              · rw [List.mem_singleton] at h2
                subst h2
                exact hrname
            · exact ih3 w h
        · rw [process_games_cons_noflush env existing g rest cur url hex2 hsearch hmod]
          have hcur2 : ∀ r ∈ cur ++ [fetchedRecord env g url], r.game_name ≠ name := by
            intro r hr
            rcases List.mem_append.mp hr with h | h
            · exact hcur r h
            · rw [List.mem_singleton] at h
              subst h
              exact hrname
          obtain ⟨ih1, ih2, ih3, ih4⟩ := ih (cur ++ [fetchedRecord env g url]) hcur2
          refine ⟨?_, ?_, ih3, ih4⟩
          · intro hmem2
            rcases List.mem_cons.mp hmem2 with h | h
            · exact hgname h.symm
            · exact ih1 h
          · intro r hr
            rcases List.mem_cons.mp hr with h | h
            · subst h
              exact hrname
            · exact ih2 r h

/-- Claim C10: an input name among the names loaded from the existing
output table is never searched during the run, and no row written by
the run and no returned record carries it. -/
theorem run_skips_existing (env : FetchEnv) (games : List String)
    (initTable : List GameRecord) (name : String)
    (hmem : name ∈ load_existing_games initTable) :
    name ∉ (run_model env games initTable).searched
    ∧ (∀ w ∈ (run_model env games initTable).writes, ∀ r ∈ w, r.game_name ≠ name)
    ∧ (∀ r ∈ (run_model env games initTable).results, r.game_name ≠ name) := by
  have hcontains : (load_existing_games initTable).contains name = true := by
    simpa using hmem
  by_cases hempty : games.isEmpty = true
  · have hrun : run_model env games initTable = ⟨[], [], []⟩ := by
      simp [run_model, hempty]
    rw [hrun]
    exact ⟨by simp, by simp, by simp⟩
  · obtain ⟨h1, h2, h3, _⟩ :=
      process_games_skips env (load_existing_games initTable) name hcontains games [] (by simp)
    have hrun : run_model env games initTable =
        ⟨(process_games env (load_existing_games initTable) games []).results,
         (process_games env (load_existing_games initTable) games []).flushWrites ++
           (if (process_games env (load_existing_games initTable) games []).results.isEmpty
            then [] else [(process_games env (load_existing_games initTable) games []).results]),
         (process_games env (load_existing_games initTable) games []).searched⟩ := by
      simp [run_model, hempty]
    rw [hrun]
    refine ⟨h1, ?_, h2⟩
    intro w hw
    rcases List.mem_append.mp hw with h | h
    · exact h3 w h
    · by_cases hres : (process_games env (load_existing_games initTable) games []).results.isEmpty = true
      · rw [if_pos hres] at h
        simp at h
      · rw [if_neg hres] at h
        rw [List.mem_singleton] at h
        subst h
        exact h2

/-- The existing output table holding one row named A. -/
def tableA : List GameRecord := [⟨"A", "Success", []⟩]

/-- Claim C10 witness: a concrete re-run over a table already holding
the name A never searches A and writes no row for it. -/
theorem run_skips_existing_witness :
    "A" ∉ (run_model env0 ["A", "B"] tableA).searched
    ∧ (∀ w ∈ (run_model env0 ["A", "B"] tableA).writes, ∀ r ∈ w, r.game_name ≠ "A")
    ∧ (∀ r ∈ (run_model env0 ["A", "B"] tableA).results, r.game_name ≠ "A") :=
  run_skips_existing env0 ["A", "B"] tableA "A" (by decide)

/-! ### Claim C1 -/

/-- An environment in which every name resolves to a detail URL and
every fetch succeeds with a bare page. -/
def envAllSuccess : FetchEnv :=
  ⟨fun _ => some "https://store.steampowered.com/app/1/", fun _ => some soupNoTable⟩

/-- Twenty-five distinct input names. -/
def names25 : List String := (List.range 25).map (fun i => "g" ++ toString i)

/-- Claim C1 evaluation: over 25 fresh names that all process
successfully, checkpoint flushes of 10 rows occur after the 10th and
20th names, but the final save then writes the entire 25-record
results list again, so the run writes 45 rows in total and the first
name appears in two written rows. -/
theorem run_model_final_save_duplicates :
    ((run_model envAllSuccess names25 []).writes.map List.length = [10, 10, 25])
    ∧ (run_model envAllSuccess names25 []).writes.flatten.length = 45
    ∧ ((run_model envAllSuccess names25 []).writes.flatten.countP
        (fun r => r.game_name == "g0")) = 2 := by
  refine ⟨?_, ?_, ?_⟩ <;> decide
